import Mathlib

set_option autoImplicit false

/-! Verification development for the extendible-hashing map of the repository
SteveLauC/ExtendableHashMap.  The definitions below are a shallow embedding of
src/util.rs, src/bucket.rs and src/map.rs: pure Rust functions become Lean
functions, the mutating `HashMap` methods become functions from a state to a
new state, machine integers become `Nat` with explicit reduction modulo a
power of two where the Rust code can wrap, and every Rust panic (failed
`assert!`, `unwrap()` on `None`, out-of-bounds indexing, failed
`push_within_capacity`) becomes an `Except.error`.  The unbounded recursion of
`HashMap::split` is modelled with explicit fuel whose exhaustion is an error.
The 64-bit hash produced by `DefaultHasher` is a parameter `h : K → Nat` of
every operation; `defaultHashI32` below instantiates it faithfully with
SipHash-1-3 under zero keys applied to the four little-endian bytes of a
non-negative `i32` key, which is what `std::collections::hash_map::DefaultHasher`
computes for the `i32` keys of the repository's driver and tests. -/

/-! Section one: the embedded data model and operations. -/

/-- Embeds `util.rs::get_first_n_bits(n, num)`: the most-significant `n` bits of the
64-bit value `num`, most-significant first.  `num >= 2^63` tests the top bit and
`num <<= 1` is doubling modulo `2^64`. -/
def get_first_n_bits : Nat → Nat → List Nat
  | 0, _ => []
  | n + 1, num => (if 2 ^ 63 ≤ num then 1 else 0) :: get_first_n_bits n (num * 2 % 2 ^ 64)

/-- Embeds `util.rs::bits_to_value(bits)`: interprets a most-significant-first bit
sequence as an unsigned integer (reverse, enumerate, fold with weight `2^idx`). -/
def bits_to_value (bits : List Nat) : Nat :=
  (bits.reverse.enum).foldl (fun acc p => acc + p.2 * 2 ^ p.1) 0

/-- Embeds `bucket.rs::BUCKET_CAP`. -/
def BUCKET_CAP : Nat := 3

/-- Embeds `bucket.rs::Bucket` as used by `map.rs`: the bit pattern (`bits`, digits
0/1, local depth is its length) plus the stored `(key, value)` pairs (`data`). -/
structure Bucket (K V : Type) where
  bits : List Nat
  data : List (K × V)

/-- Embeds `bucket.rs::BucketValue`; `Range start stop` stands for the inclusive
Rust range `start..=stop`. -/
inductive BucketValue where
  | EqualTo (v : Nat)
  | Range (start stop : Nat)

/-- Embeds `BucketValue::last_half_range`: `Some((start + (end - start) / 2, end))`
for a `Range`, `None` for an `EqualTo`. -/
def BucketValue.last_half_range : BucketValue → Option (Nat × Nat)
  | .Range start stop => some (start + (stop - start) / 2, stop)
  | .EqualTo _ => none

/-- The directory slots denoted by a `BucketValue` (iteration of the Rust
`RangeInclusive`, or the single index). -/
def BucketValue.slots : BucketValue → List Nat
  | .EqualTo i => [i]
  | .Range start stop => List.range' start (stop + 1 - start)

/-- Embeds `Bucket::local_depth`. -/
def Bucket.local_depth {K V : Type} (b : Bucket K V) : Nat := b.bits.length

/-- Embeds `Bucket::is_full` (`entries.len() == BUCKET_CAP`). -/
def Bucket.is_full {K V : Type} (b : Bucket K V) : Bool := b.data.length == BUCKET_CAP

/-- Embeds `Bucket::contains`: linear scan for the key. -/
def Bucket.contains {K V : Type} [DecidableEq K] (b : Bucket K V) (key : K) : Bool :=
  b.data.any fun p => p.1 == key

/-- Embeds `Bucket::value(global_depth)`: the bucket's directory image.  The Rust
assertion `local_depth < global_depth` in the second branch becomes an error. -/
def Bucket.value {K V : Type} (b : Bucket K V) (global_depth : Nat) :
    Except String BucketValue :=
  let local_depth := b.bits.length
  if local_depth = global_depth then
    .ok (.EqualTo ((b.bits.reverse.enum).foldl (fun acc p => acc + 2 ^ p.1 * p.2) 0))
  else if local_depth < global_depth then
    let start := (b.bits.enum).foldl (fun acc p => acc + 2 ^ (global_depth - p.1 - 1) * p.2) 0
    .ok (.Range start (start + 2 ^ (global_depth - b.bits.length) - 1))
  else .error "assertion failed: local_depth < global_depth"

/-- Embeds `map.rs::HashMap`: `directories` stores bucket indices into `buckets`. -/
structure EHMap (K V : Type) where
  len : Nat
  global_depth : Nat
  directories : List Nat
  buckets : List (Bucket K V)

/-- Embeds `HashMap::new` / `Default`: global depth 1, directory `[0, 1]`, two empty
buckets with bits `[0]` and `[1]`. -/
def EHMap.new {K V : Type} : EHMap K V :=
  { len := 0, global_depth := 1, directories := [0, 1],
    buckets := [⟨[0], []⟩, ⟨[1], []⟩] }

/-- Embeds `HashMap::capacity`. -/
def EHMap.capacity {K V : Type} (s : EHMap K V) : Nat :=
  s.directories.length * BUCKET_CAP

/-- Embeds `HashMap::locate_bucket`.  `h` models the 64-bit result of hashing the
key with `DefaultHasher` (`finish()`); the directory index is the first
`global_depth` bits of that hash.  Out-of-range directory indexing is a panic. -/
def locate_bucket {K V : Type} (h : K → Nat) (s : EHMap K V) (key : K) :
    Except String Nat :=
  let first_bits := get_first_n_bits s.global_depth (h key)
  let directory_idx := bits_to_value first_bits
  match s.directories[directory_idx]? with
  | some b => .ok b
  | none => .error "index out of bounds: directories"

/-- Writes every directory slot in `slots` to the bucket index `v`
(`self.directories[idx] = v` in a loop; out-of-range indexing is a panic). -/
def writeSlots (dirs : List Nat) (slots : List Nat) (v : Nat) : Except String (List Nat) :=
  match slots with
  | [] => .ok dirs
  | i :: rest =>
    if i < dirs.length then writeSlots (dirs.set i v) rest v
    else .error "index out of bounds: directories"

/-- The repointing loop of `map.rs` (`split` lines 159-170, `remove` lines 310-323):
for each bucket (index `i`, then `i+1`, ...) recompute its value at depth `gd` and
write its slots to point at it. -/
def repointAll {K V : Type} : List (Bucket K V) → Nat → List Nat → Nat →
    Except String (List Nat)
  | [], _, dirs, _ => .ok dirs
  | b :: rest, gd, dirs, i =>
    match b.value gd with
    | .error e => .error e
    | .ok bv =>
      match writeSlots dirs bv.slots i with
      | .error e => .error e
      | .ok dirs' => repointAll rest gd dirs' (i + 1)

/-- The rehashing loop of `HashMap::split` (lines 178-183): relocate each drained
entry via `locate_bucket`, assert it lands in the split bucket or its new sibling,
and push it there. -/
def rehashItems {K V : Type} [DecidableEq K] (h : K → Nat) (bts ni : Nat) :
    List (K × V) → EHMap K V → Except String (EHMap K V)
  | [], s => .ok s
  | (k, v) :: rest, s =>
    match locate_bucket h s k with
    | .error e => .error e
    | .ok idx =>
      if idx = bts ∨ idx = ni then
        match s.buckets[idx]? with
        | some b =>
          rehashItems h bts ni rest
            { s with buckets := s.buckets.set idx { b with data := b.data ++ [(k, v)] } }
        | none => .error "index out of bounds: buckets"
      else .error "assertion failed: idx == bucket_to_split || idx == new_bucket_idx"

/-- The directory-update stage of `HashMap::split` (lines 129-171): when the old
local depth is below the old global depth, repoint the upper half of the split
bucket's old image at the new sibling; otherwise double the global depth, extend
the directory by appending, and repoint every bucket's recomputed image. -/
def splitRepoint {K V : Type} (old_local_depth old_global_depth : Nat)
    (bucket_value : BucketValue) (new_bucket_idx : Nat) (s1 : EHMap K V) :
    Except String (EHMap K V) :=
  if old_local_depth < old_global_depth then
    match bucket_value.last_half_range with
    | none => .error "unwrap on None"
    | some p =>
      match writeSlots s1.directories (List.range' p.1 (p.2 + 1 - p.1)) new_bucket_idx with
      | .error e => .error e
      | .ok dirs => .ok { s1 with directories := dirs }
  else
    let grown : EHMap K V :=
      { s1 with global_depth := s1.global_depth + 1,
                directories := s1.directories ++ List.replicate s1.directories.length 0 }
    match repointAll grown.buckets grown.global_depth grown.directories 0 with
    | .error e => .error e
    | .ok dirs => .ok { grown with directories := dirs }

/-- Embeds `HashMap::split`.  The unbounded Rust recursion is modelled with `fuel`
(exhaustion is an error); every Rust `assert!`/`unwrap`/`panic!` is an error. -/
def split {K V : Type} [DecidableEq K] (h : K → Nat) :
    Nat → K → V → Nat → EHMap K V → Except String (EHMap K V)
  | 0, _, _, _, _ => .error "split recursion exhausted"
  | fuel + 1, key, value, bucket_to_split, s =>
    match s.buckets[bucket_to_split]? with
    | none => .error "index out of bounds: buckets"
    | some b =>
      let old_local_depth := b.local_depth
      let old_global_depth := s.global_depth
      if old_global_depth < old_local_depth then
        .error "assertion failed: old_local_depth <= old_global_depth"
      else
        match b.value old_global_depth with
        | .error e => .error e
        | .ok bucket_value =>
          let new_bucket : Bucket K V := { bits := b.bits ++ [1], data := [] }
          let new_bucket_idx := s.buckets.length
          let s1 : EHMap K V :=
            { s with buckets :=
                (s.buckets.set bucket_to_split { b with bits := b.bits ++ [0] }) ++ [new_bucket] }
          match splitRepoint old_local_depth old_global_depth bucket_value new_bucket_idx s1 with
          | .error e => .error e
          | .ok s2 =>
            match s2.buckets[bucket_to_split]? with
            | none => .error "index out of bounds: buckets"
            | some bsp =>
              let items := bsp.data
              let s3 : EHMap K V :=
                { s2 with buckets := s2.buckets.set bucket_to_split { bsp with data := [] } }
              match rehashItems h bucket_to_split new_bucket_idx items s3 with
              | .error e => .error e
              | .ok s4 =>
                match locate_bucket h s4 key with
                | .error e => .error e
                | .ok idx =>
                  if idx = bucket_to_split ∨ idx = new_bucket_idx then
                    match s4.buckets[idx]? with
                    | none => .error "index out of bounds: buckets"
                    | some tb =>
                      if tb.is_full then split h fuel key value idx s4
                      else if BUCKET_CAP ≤ tb.data.length then
                        .error "push_within_capacity failed"
                      else
                        .ok { s4 with buckets :=
                          s4.buckets.set idx { tb with data := tb.data ++ [(key, value)] } }
                  else .error "assertion failed: idx == bucket_to_split || idx == new_bucket_idx"

/-- Embeds `HashMap::insert`.  Note the duplicate-key path returns `Some(value)`
(the incoming value) without touching the map. -/
def EHMap.insert {K V : Type} [DecidableEq K] (h : K → Nat) (fuel : Nat) (key : K) (value : V)
    (s : EHMap K V) : Except String (Option V × EHMap K V) :=
  match locate_bucket h s key with
  | .error e => .error e
  | .ok bucket_idx =>
    match s.buckets[bucket_idx]? with
    | none => .error "index out of bounds: buckets"
    | some b =>
      if b.contains key then .ok (some value, s)
      else if !b.is_full then
        if BUCKET_CAP ≤ b.data.length then .error "push_within_capacity failed"
        else .ok (none,
          { s with len := s.len + 1,
                   buckets := s.buckets.set bucket_idx { b with data := b.data ++ [(key, value)] } })
      else
        match split h fuel key value bucket_idx s with
        | .error e => .error e
        | .ok s2 => .ok (none, { s2 with len := s2.len + 1 })

/-- Remove the first entry with the given key from an entry list, returning its
value and the remaining list (mirrors `position` followed by `Vec::remove`). -/
def removeEntry {K V : Type} [DecidableEq K] (key : K) :
    List (K × V) → Option (V × List (K × V))
  | [] => none
  | p :: rest =>
    if p.1 == key then some (p.2, rest)
    else match removeEntry key rest with
      | none => none
      | some (v, rest') => some (v, p :: rest')

/-- The merge step of `HashMap::remove` (both symmetric branches, lines 280-364):
drain the losing bucket, extend the winner, pop the winner's trailing bit, repoint
the loser's image slots at the winner, remove the loser from storage, then repoint
every bucket whose storage index shifted. -/
def mergeBuckets {K V : Type} (s1 : EHMap K V) (loser winner : Nat) :
    Except String (EHMap K V) :=
  match s1.buckets[loser]? with
  | none => .error "index out of bounds: buckets"
  | some lb =>
    match lb.value s1.global_depth with
    | .error e => .error e
    | .ok loser_value =>
      let drained := lb.data
      let buckets1 := s1.buckets.set loser { lb with data := [] }
      match buckets1[winner]? with
      | none => .error "unwrap on None"
      | some wb =>
        if wb.bits.isEmpty then .error "unwrap on None"
        else
          let buckets2 := buckets1.set winner
            { wb with data := wb.data ++ drained, bits := wb.bits.dropLast }
          match writeSlots s1.directories loser_value.slots winner with
          | .error e => .error e
          | .ok dirs1 =>
            let buckets3 := buckets2.eraseIdx loser
            match repointAll (buckets3.drop loser) s1.global_depth dirs1 loser with
            | .error e => .error e
            | .ok dirs2 => .ok { s1 with directories := dirs2, buckets := buckets3 }

/-- The sibling lookup of `HashMap::remove` (lines 256-266): flip the bucket's
last bit, pad (`resize`) to global depth, read the directory slot. -/
def siblingIndex {K V : Type} (s1 : EHMap K V) (b : Bucket K V) (bucket_last_bit : Nat) :
    Option Nat :=
  let bucket_bits := b.bits.dropLast ++ [1 - bucket_last_bit]
  let padded := bucket_bits.take s1.global_depth ++
    List.replicate (s1.global_depth - bucket_bits.length) 0
  s1.directories[bits_to_value padded]?

/-- The coalescing check of `HashMap::remove` (lines 253-277) on the post-deletion
state: local depth at least 2, sibling (last bit flipped, padded to global depth
with `resize`) of equal local depth, combined size strictly below `BUCKET_CAP`. -/
def tryCoalesce {K V : Type} (s1 : EHMap K V) (bucket_idx : Nat) :
    Except String (EHMap K V) :=
  match s1.buckets[bucket_idx]? with
  | none => .error "index out of bounds: buckets"
  | some b =>
    if 2 ≤ b.local_depth then
      match b.bits.getLast? with
      | none => .error "unwrap on None"
      | some bucket_last_bit =>
        match siblingIndex s1 b bucket_last_bit with
        | none => .error "index out of bounds: directories"
        | some sibling_idx =>
          match s1.buckets[sibling_idx]? with
          | none => .error "unwrap on None"
          | some sib =>
            if sib.local_depth = b.local_depth then
              if sib.data.length + b.data.length < BUCKET_CAP then
                if bucket_last_bit = 1 then mergeBuckets s1 bucket_idx sibling_idx
                else mergeBuckets s1 sibling_idx bucket_idx
              else .ok s1
            else .ok s1
    else .ok s1

/-- Embeds `HashMap::remove`: delete the entry (early `None` return when absent),
decrement `len`, then attempt coalescing. -/
def EHMap.remove {K V : Type} [DecidableEq K] (h : K → Nat) (key : K) (s : EHMap K V) :
    Except String (Option V × EHMap K V) :=
  match locate_bucket h s key with
  | .error e => .error e
  | .ok bucket_idx =>
    match s.buckets[bucket_idx]? with
    | none => .error "locate_bucket() returns a wrong index"
    | some b =>
      match removeEntry key b.data with
      | none => .ok (none, s)
      | some (value, rest) =>
        let s1 : EHMap K V :=
          { s with len := s.len - 1,
                   buckets := s.buckets.set bucket_idx { b with data := rest } }
        match tryCoalesce s1 bucket_idx with
        | .error e => .error e
        | .ok s2 => .ok (some value, s2)

/-- Embeds `HashMap::get`: locate the bucket, scan its entries for the key. -/
def EHMap.get {K V : Type} [DecidableEq K] (h : K → Nat) (s : EHMap K V) (key : K) :
    Except String (Option V) :=
  match locate_bucket h s key with
  | .error e => .error e
  | .ok bucket_idx =>
    match s.buckets[bucket_idx]? with
    | none => .error "locate_bucket() returns a wrong index"
    | some b => .ok ((b.data.find? (fun p => p.1 == key)).map (·.2))

/-- Embeds `HashMap::get_mut` followed by the caller storing `v` through the
returned mutable reference (the only state change `get_mut` enables). -/
def getMutWrite {K V : Type} [DecidableEq K] (h : K → Nat) (key : K) (v : V)
    (s : EHMap K V) : Except String (EHMap K V) :=
  match locate_bucket h s key with
  | .error e => .error e
  | .ok bucket_idx =>
    match s.buckets[bucket_idx]? with
    | none => .error "locate_bucket() returns a wrong index"
    | some b =>
      match List.findIdx? (fun p => p.1 == key) b.data with
      | none => .ok s
      | some i =>
        match b.data[i]? with
        | none => .ok s
        | some p =>
          .ok { s with buckets := s.buckets.set bucket_idx { b with data := b.data.set i (p.1, v) } }

/-- One mutating call against the map: insert (with recursion fuel for `split`),
remove, or a `get_mut` whose caller writes a new value. -/
inductive Op (K V : Type) where
  | ins (fuel : Nat) (k : K) (v : V)
  | rem (k : K)
  | gmw (k : K) (v : V)

/-- Apply one call, keeping only the resulting state. -/
def applyOp {K V : Type} [DecidableEq K] (h : K → Nat) (s : EHMap K V) :
    Op K V → Except String (EHMap K V)
  | .ins fuel k v =>
    match EHMap.insert h fuel k v s with
    | .error e => .error e
    | .ok (_, s') => .ok s'
  | .rem k =>
    match EHMap.remove h k s with
    | .error e => .error e
    | .ok (_, s') => .ok s'
  | .gmw k v => getMutWrite h k v s

/-- Run a sequence of calls from a starting state. -/
def runOps {K V : Type} [DecidableEq K] (h : K → Nat) (ops : List (Op K V))
    (s : EHMap K V) : Except String (EHMap K V) :=
  match ops with
  | [] => .ok s
  | op :: rest =>
    match applyOp h s op with
    | .error e => .error e
    | .ok s' => runOps h rest s'

/-! Section two: the hash function of the reference driver.  `DefaultHasher` is
SipHash-1-3 with both keys zero; hashing an `i32` feeds its four native-endian
(little-endian on the reference platform) bytes to the hasher. -/

def M64 : Nat := 2 ^ 64

def wadd (a b : Nat) : Nat := (a + b) % M64

def rotl64 (x n : Nat) : Nat := (x * 2 ^ n % M64) ||| (x / 2 ^ (64 - n))

structure Sip where
  v0 : Nat
  v1 : Nat
  v2 : Nat
  v3 : Nat

def sipRound (s : Sip) : Sip :=
  let v0 := wadd s.v0 s.v1
  let v1 := rotl64 s.v1 13
  let v1 := v1 ^^^ v0
  let v0 := rotl64 v0 32
  let v2 := wadd s.v2 s.v3
  let v3 := rotl64 s.v3 16
  let v3 := v3 ^^^ v2
  let v0 := wadd v0 v3
  let v3 := rotl64 v3 21
  let v3 := v3 ^^^ v0
  let v2 := wadd v2 v1
  let v1 := rotl64 v1 17
  let v1 := v1 ^^^ v2
  let v2 := rotl64 v2 32
  ⟨v0, v1, v2, v3⟩

/-- Little-endian value of a byte list (first byte least significant). -/
def leBytes (bs : List Nat) : Nat := bs.foldr (fun b acc => b + 256 * acc) 0

def sipFinish (st : Sip) (tail : List Nat) (len : Nat) : Nat :=
  let b := (len % 256) * 2 ^ 56 + leBytes tail
  let st := { st with v3 := st.v3 ^^^ b }
  let st := sipRound st
  let st := { st with v0 := st.v0 ^^^ b }
  let st := { st with v2 := st.v2 ^^^ 255 }
  let st := sipRound (sipRound (sipRound st))
  (st.v0 ^^^ st.v1) ^^^ (st.v2 ^^^ st.v3)

def sipBlocks (st : Sip) (len : Nat) : List Nat → Nat
  | b0 :: b1 :: b2 :: b3 :: b4 :: b5 :: b6 :: b7 :: rest =>
    let m := leBytes [b0, b1, b2, b3, b4, b5, b6, b7]
    let st := { st with v3 := st.v3 ^^^ m }
    let st := sipRound st
    let st := { st with v0 := st.v0 ^^^ m }
    sipBlocks st len rest
  | tail => sipFinish st tail len

/-- SipHash-1-3 with both keys zero, as `DefaultHasher::new()` uses. -/
def sip13 (bytes : List Nat) : Nat :=
  sipBlocks ⟨0x736f6d6570736575, 0x646f72616e646f6d, 0x6c7967656e657261, 0x7465646279746573⟩
    bytes.length bytes

/-- The four little-endian bytes of a non-negative `i32`. -/
def i32LeBytes (n : Nat) : List Nat :=
  [n % 256, n / 256 % 256, n / 65536 % 256, n / 16777216 % 256]

/-- `DefaultHasher` applied to an `i32` key (which hashes its 4 native-endian
bytes), for non-negative keys. -/
def defaultHashI32 (n : Nat) : Nat := sip13 (i32LeBytes n)

/-! Section three: statement-side definitions used by the claim theorems. -/

/-- Least-significant-first value of a bit list. -/
def lsbVal : List Nat → Nat
  | [] => 0
  | b :: r => b + 2 * lsbVal r

/-- Every bucket of the state holds at most `BUCKET_CAP` entries. -/
def capP {K V : Type} (s : EHMap K V) : Prop :=
  ∀ b ∈ s.buckets, b.data.length ≤ BUCKET_CAP

/-- The three coalescing conditions checked by `HashMap::remove` (lines 255-277) on
the post-deletion state: local depth at least 2, sibling (found via
`siblingIndex`) of equal local depth, combined entry count strictly below
`BUCKET_CAP`.  `false` also when a lookup that `remove` would panic on fails. -/
def coalesceConditions {K V : Type} (s1 : EHMap K V) (bucket_idx : Nat) : Bool :=
  match s1.buckets[bucket_idx]? with
  | none => false
  | some b =>
    if 2 ≤ b.local_depth then
      match b.bits.getLast? with
      | none => false
      | some bucket_last_bit =>
        match siblingIndex s1 b bucket_last_bit with
        | none => false
        | some sibling_idx =>
          match s1.buckets[sibling_idx]? with
          | none => false
          | some sib =>
            (sib.local_depth == b.local_depth) &&
              decide (sib.data.length + b.data.length < BUCKET_CAP)
    else false

def slotsReferencing {K V : Type} (s : EHMap K V) (i : Nat) : List Nat :=
  (List.range s.directories.length).filter fun j => s.directories.getD j 0 == i

def dirInvariantB {K V : Type} (s : EHMap K V) : Bool :=
  (List.range s.buckets.length).all fun i =>
    match s.buckets[i]? with
    | none => true
    | some b =>
      match b.value s.global_depth with
      | .ok bv => slotsReferencing s i == bv.slots
      | .error _ => false

def c1Run : Except String (Option Nat × Option Nat × Nat) :=
  match EHMap.insert defaultHashI32 64 1 10 (EHMap.new : EHMap Nat Nat) with
  | .error e => .error e
  | .ok (_, s1) =>
    match EHMap.insert defaultHashI32 64 1 20 s1 with
    | .error e => .error e
    | .ok (r2, s2) =>
      match EHMap.get defaultHashI32 s2 1 with
      | .error e => .error e
      | .ok g => .ok (r2, g, s2.len)

def c3Ops : List (Op Nat Nat) := (List.range 11).map fun i => Op.ins 64 i i

def c3Outcome : Option Bool :=
  match runOps defaultHashI32 c3Ops EHMap.new with
  | .ok s => some (dirInvariantB s)
  | .error _ => none

def c4Run : Except String (Option Nat) :=
  match EHMap.insert defaultHashI32 64 7 70 (EHMap.new : EHMap Nat Nat) with
  | .error e => .error e
  | .ok (_, s1) =>
    match EHMap.insert defaultHashI32 64 7 71 s1 with
    | .error e => .error e
    | .ok (_, s2) => EHMap.get defaultHashI32 s2 7

def driverRunOps : List (Op Nat Nat) :=
  (List.range 30).flatMap fun i => [Op.rem i, Op.ins 64 i i]

def c5Outcome : Option String :=
  match runOps defaultHashI32 driverRunOps EHMap.new with
  | .ok _ => none
  | .error e => some e

def c6WitnessState : EHMap Nat Nat :=
  match runOps defaultHashI32 [Op.ins 64 3 30, Op.ins 64 4 40, Op.rem 3] EHMap.new with
  | .ok s => s
  | .error _ => EHMap.new

def c8s : EHMap Nat Nat :=
  match EHMap.insert defaultHashI32 64 1 10 EHMap.new with
  | .ok (_, t) => t
  | .error _ => EHMap.new

def c8s1 : EHMap Nat Nat :=
  { c8s with len := c8s.len - 1, buckets := c8s.buckets.set 0 ⟨[0], []⟩ }

def c8sFinal : EHMap Nat Nat :=
  match EHMap.remove defaultHashI32 1 c8s with
  | .ok (_, t) => t
  | .error _ => EHMap.new

def c9PrefixOps : List (Op Nat Nat) := (List.range 12).map fun i => Op.ins 64 i i

def c9PrefixReachable : Bool :=
  match runOps defaultHashI32 c9PrefixOps EHMap.new with
  | .ok _ => true
  | .error _ => false

def c9Outcome : Option String :=
  match runOps defaultHashI32 (c9PrefixOps ++ [Op.ins 64 12 12]) EHMap.new with
  | .ok _ => none
  | .error e => some e

def c10PreOps : List (Op Nat Nat) :=
  ((List.range 11).map fun i => Op.ins 64 i i) ++ [Op.rem 1, Op.rem 3]

def c10KeyAbsent : Option Bool :=
  match runOps defaultHashI32 c10PreOps EHMap.new with
  | .ok s => some (s.buckets.any fun b => b.contains 25)
  | .error _ => none

def c10Outcome : Except String (Option Nat × EHMap Nat Nat) :=
  match runOps defaultHashI32 c10PreOps EHMap.new with
  | .ok s => EHMap.remove defaultHashI32 25 s
  | .error e => .error e

/-! Section four: supporting lemmas. -/

theorem enumFrom_foldl_val (l : List Nat) : ∀ (i a : Nat),
    (List.enumFrom i l).foldl (fun acc p => acc + p.2 * 2 ^ p.1) a = a + 2 ^ i * lsbVal l := by
  induction l with
  | nil => intro i a; simp [lsbVal]
  | cons b r ih =>
    intro i a
    simp only [List.enumFrom, List.foldl, lsbVal]
    rw [ih]
    ring

theorem bits_to_value_eq_lsbVal (l : List Nat) : bits_to_value l = lsbVal l.reverse := by
  have h := enumFrom_foldl_val l.reverse 0 0
  simpa [bits_to_value, List.enum] using h

theorem bits_to_value_append_bit (xs : List Nat) (b : Nat) :
    bits_to_value (xs ++ [b]) = 2 * bits_to_value xs + b := by
  rw [bits_to_value_eq_lsbVal, bits_to_value_eq_lsbVal]
  simp [List.reverse_append, lsbVal]
  ring

theorem get_first_n_bits_succ (n : Nat) : ∀ num : Nat,
    ∃ b, b ≤ 1 ∧ get_first_n_bits (n + 1) num = get_first_n_bits n num ++ [b] := by
  induction n with
  | zero =>
    intro num
    refine ⟨if 2 ^ 63 ≤ num then 1 else 0, ?_, ?_⟩
    · split <;> simp
    · simp [get_first_n_bits]
  | succ n ih =>
    intro num
    obtain ⟨b, hb, heq⟩ := ih (num * 2 % 2 ^ 64)
    refine ⟨b, hb, ?_⟩
    show (if 2 ^ 63 ≤ num then 1 else 0) :: get_first_n_bits (n + 1) (num * 2 % 2 ^ 64)
        = ((if 2 ^ 63 ≤ num then 1 else 0) :: get_first_n_bits n (num * 2 % 2 ^ 64)) ++ [b]
    rw [heq, List.cons_append]

theorem all_mem_set {α : Type} {l : List α} {p : α → Prop} (hl : ∀ b ∈ l, p b) (i : Nat)
    {x : α} (hx : p x) : ∀ b ∈ l.set i x, p b := fun b hb =>
  (List.mem_or_eq_of_mem_set hb).elim (hl b) (fun e => e ▸ hx)

theorem mem_of_getElem?_eq {α : Type} {l : List α} {i : Nat} {a : α}
    (h : l[i]? = some a) : a ∈ l := by
  obtain ⟨hlt, rfl⟩ := List.getElem?_eq_some.mp h
  exact List.getElem_mem hlt

theorem splitRepoint_buckets {K V : Type} {old_ld old_gd : Nat} {bv : BucketValue}
    {ni : Nat} {s1 s2 : EHMap K V}
    (hsr : splitRepoint old_ld old_gd bv ni s1 = .ok s2) : s2.buckets = s1.buckets := by
  unfold splitRepoint at hsr
  by_cases hlt : old_ld < old_gd
  · rw [if_pos hlt] at hsr
    cases hlh : bv.last_half_range with
    | none => simp only [hlh] at hsr; exact Except.noConfusion hsr
    | some p =>
      simp only [hlh] at hsr
      cases hw : writeSlots s1.directories (List.range' p.1 (p.2 + 1 - p.1)) ni with
      | error e => simp only [hw] at hsr; exact Except.noConfusion hsr
      | ok dirs => simp only [hw] at hsr; rw [← Except.ok.inj hsr]
  · rw [if_neg hlt] at hsr
    simp only at hsr
    cases hw : repointAll s1.buckets (s1.global_depth + 1)
        (s1.directories ++ List.replicate s1.directories.length 0) 0 with
    | error e => simp only [hw] at hsr; exact Except.noConfusion hsr
    | ok dirs => simp only [hw] at hsr; rw [← Except.ok.inj hsr]

theorem rehash_cap {K V : Type} [DecidableEq K] (h : K → Nat) (bts ni : Nat) (hne : bts ≠ ni) :
    ∀ (items : List (K × V)) (s s' : EHMap K V) (bb nb : Bucket K V),
      s.buckets[bts]? = some bb → s.buckets[ni]? = some nb →
      capP s →
      bb.data.length + nb.data.length + items.length ≤ BUCKET_CAP →
      rehashItems h bts ni items s = .ok s' → capP s' := by
  intro items
  induction items with
  | nil =>
    intro s s' bb nb _ _ hcap _ hr
    unfold rehashItems at hr
    exact Except.ok.inj hr ▸ hcap
  | cons kv rest ih =>
    obtain ⟨k, v⟩ := kv
    intro s s' bb nb hbb hnb hcap hsum hr
    unfold rehashItems at hr
    cases hloc : locate_bucket h s k with
    | error e => simp only [hloc] at hr; exact Except.noConfusion hr
    | ok idx =>
      simp only [hloc] at hr
      by_cases hin : idx = bts ∨ idx = ni
      · rw [if_pos hin] at hr
        cases hbidx : s.buckets[idx]? with
        | none => simp only [hbidx] at hr; exact Except.noConfusion hr
        | some bcur =>
          simp only [hbidx] at hr
          have hblt : bts < s.buckets.length := (List.getElem?_eq_some.mp hbb).1
          have hnlt : ni < s.buckets.length := (List.getElem?_eq_some.mp hnb).1
          cases hin with
          | inl hidx =>
            subst hidx
            rw [hbb] at hbidx
            have hbc : bcur = bb := (Option.some.inj hbidx).symm
            subst hbc
            simp only [List.length_cons] at hsum
            refine ih _ s' { bcur with data := bcur.data ++ [(k, v)] } nb ?_ ?_ ?_ ?_ hr
            · simpa using List.getElem?_set_self (by simpa using hblt)
            · rw [List.getElem?_set_ne hne]; exact hnb
            · exact all_mem_set hcap _ (by simp; omega)
            · simp at hsum ⊢; omega
          | inr hidx =>
            subst hidx
            rw [hnb] at hbidx
            have hbc : bcur = nb := (Option.some.inj hbidx).symm
            subst hbc
            simp only [List.length_cons] at hsum
            refine ih _ s' bb { bcur with data := bcur.data ++ [(k, v)] } ?_ ?_ ?_ ?_ hr
            · rw [List.getElem?_set_ne (Ne.symm hne)]; exact hbb
            · simpa using List.getElem?_set_self (by simpa using hnlt)
            · exact all_mem_set hcap _ (by simp; omega)
            · simp at hsum ⊢; omega
      · rw [if_neg hin] at hr; exact Except.noConfusion hr

theorem split_cap {K V : Type} [DecidableEq K] (h : K → Nat) :
    ∀ (fuel : Nat) (key : K) (value : V) (bts : Nat) (s s' : EHMap K V),
      capP s → split h fuel key value bts s = .ok s' → capP s' := by
  intro fuel
  induction fuel with
  | zero => intro key value bts s s' _ hsp; exact Except.noConfusion hsp
  | succ fuel ih =>
    intro key value bts s s' hcap hsp
    unfold split at hsp
    cases hb : s.buckets[bts]? with
    | none => simp only [hb] at hsp; exact Except.noConfusion hsp
    | some b =>
      simp only [hb] at hsp
      by_cases hgl : s.global_depth < b.local_depth
      · rw [if_pos hgl] at hsp; exact Except.noConfusion hsp
      · rw [if_neg hgl] at hsp
        cases hbv : b.value s.global_depth with
        | error e => simp only [hbv] at hsp; exact Except.noConfusion hsp
        | ok bucket_value =>
          simp only [hbv] at hsp
          have hblt : bts < s.buckets.length := (List.getElem?_eq_some.mp hb).1
          cases hs2 : splitRepoint b.local_depth s.global_depth bucket_value s.buckets.length
              { s with buckets :=
                  (s.buckets.set bts { b with bits := b.bits ++ [0] }) ++
                    [{ bits := b.bits ++ [1], data := [] }] } with
          | error e => simp only [hs2] at hsp; exact Except.noConfusion hsp
          | ok s2 =>
            simp only [hs2] at hsp
            have hbuck2 := splitRepoint_buckets hs2
            have hcap2 : capP s2 := by
              intro x hx
              rw [hbuck2] at hx
              rcases List.mem_append.mp hx with hx1 | hx1
              · rcases List.mem_or_eq_of_mem_set hx1 with hx2 | hx2
                · exact hcap x hx2
                · subst hx2; simpa using hcap b (mem_of_getElem?_eq hb)
              · rw [List.mem_singleton.mp hx1]; simp
            cases hbsp : s2.buckets[bts]? with
            | none => simp only [hbsp] at hsp; exact Except.noConfusion hsp
            | some bsp =>
              simp only [hbsp] at hsp
              have hbsp_len : bsp.data.length ≤ BUCKET_CAP :=
                hcap2 bsp (mem_of_getElem?_eq hbsp)
              have hblt2 : bts < s2.buckets.length := (List.getElem?_eq_some.mp hbsp).1
              have hne : bts ≠ s.buckets.length := Nat.ne_of_lt hblt
              have hni : s2.buckets[s.buckets.length]? =
                  some { bits := b.bits ++ [1], data := [] } := by
                rw [hbuck2]
                rw [List.getElem?_append_right (by simp)]
                simp
              cases hr : rehashItems h bts s.buckets.length bsp.data
                  { s2 with buckets := s2.buckets.set bts { bsp with data := [] } } with
              | error e => simp only [hr] at hsp; exact Except.noConfusion hsp
              | ok s4 =>
                simp only [hr] at hsp
                have hcap4 : capP s4 := by
                  refine rehash_cap h bts s.buckets.length hne bsp.data _ s4
                      { bsp with data := [] } { bits := b.bits ++ [1], data := [] }
                      ?_ ?_ ?_ ?_ hr
                  · exact List.getElem?_set_self hblt2
                  · show (s2.buckets.set bts _)[s.buckets.length]? = _
                    rw [List.getElem?_set_ne hne]; exact hni
                  · exact all_mem_set hcap2 _ (by simp)
                  · simpa using hbsp_len
                cases hl4 : locate_bucket h s4 key with
                | error e => simp only [hl4] at hsp; exact Except.noConfusion hsp
                | ok idx =>
                  simp only [hl4] at hsp
                  by_cases hin : idx = bts ∨ idx = s.buckets.length
                  · rw [if_pos hin] at hsp
                    cases htb : s4.buckets[idx]? with
                    | none => simp only [htb] at hsp; exact Except.noConfusion hsp
                    | some tb =>
                      simp only [htb] at hsp
                      by_cases hfull : tb.is_full
                      · rw [if_pos hfull] at hsp
                        exact ih key value idx s4 s' hcap4 hsp
                      · rw [if_neg hfull] at hsp
                        by_cases hcl : BUCKET_CAP ≤ tb.data.length
                        · rw [if_pos hcl] at hsp; exact Except.noConfusion hsp
                        · rw [if_neg hcl] at hsp
                          rw [← Except.ok.inj hsp]
                          exact all_mem_set hcap4 _ (by simp; omega)
                  · rw [if_neg hin] at hsp; exact Except.noConfusion hsp

theorem removeEntry_length {K V : Type} [DecidableEq K] (key : K) :
    ∀ (l : List (K × V)) (v : V) (rest : List (K × V)),
      removeEntry key l = some (v, rest) → rest.length + 1 = l.length := by
  intro l
  induction l with
  | nil => intro v rest hr; exact Option.noConfusion hr
  | cons p tl ih =>
    intro v rest hr
    unfold removeEntry at hr
    by_cases hp : p.1 == key
    · rw [if_pos hp] at hr
      have := Option.some.inj hr
      have h2 : rest = tl := (congrArg Prod.snd this).symm
      simp [h2]
    · rw [if_neg hp] at hr
      cases htl : removeEntry key tl with
      | none => simp only [htl] at hr; exact Option.noConfusion hr
      | some pr =>
        obtain ⟨v', rest'⟩ := pr
        simp only [htl] at hr
        have := Option.some.inj hr
        have h2 : rest = p :: rest' := (congrArg Prod.snd this).symm
        subst h2
        simp [← ih v' rest' htl]

theorem mergeBuckets_cap {K V : Type} {s1 s2 : EHMap K V} {loser winner : Nat}
    (hcap : capP s1)
    (hsum : ∀ lb0 wb0, s1.buckets[loser]? = some lb0 → s1.buckets[winner]? = some wb0 →
      lb0.data.length + wb0.data.length < BUCKET_CAP)
    (hmg : mergeBuckets s1 loser winner = .ok s2) : capP s2 := by
  unfold mergeBuckets at hmg
  cases hlb : s1.buckets[loser]? with
  | none => simp only [hlb] at hmg; exact Except.noConfusion hmg
  | some lb =>
    simp only [hlb] at hmg
    cases hval : lb.value s1.global_depth with
    | error e => simp only [hval] at hmg; exact Except.noConfusion hmg
    | ok loser_value =>
      simp only [hval] at hmg
      have hllt : loser < s1.buckets.length := (List.getElem?_eq_some.mp hlb).1
      cases hwb : (s1.buckets.set loser { lb with data := [] })[winner]? with
      | none => simp only [hwb] at hmg; exact Except.noConfusion hmg
      | some wb =>
        simp only [hwb] at hmg
        by_cases hemp : wb.bits.isEmpty
        · rw [if_pos hemp] at hmg; exact Except.noConfusion hmg
        · rw [if_neg hemp] at hmg
          have hwlen : wb.data.length + lb.data.length ≤ BUCKET_CAP := by
            by_cases hwl : winner = loser
            · subst hwl
              rw [List.getElem?_set_self hllt] at hwb
              have : wb = { lb with data := ([] : List (K × V)) } :=
                (Option.some.inj hwb).symm
              subst this
              simpa using hcap lb (mem_of_getElem?_eq hlb)
            · rw [List.getElem?_set_ne (fun e => hwl e.symm)] at hwb
              have := hsum lb wb hlb hwb
              omega
          cases hws : writeSlots s1.directories loser_value.slots winner with
          | error e => simp only [hws] at hmg; exact Except.noConfusion hmg
          | ok dirs1 =>
            simp only [hws] at hmg
            cases hrp : repointAll
                ((((s1.buckets.set loser { lb with data := [] }).set winner
                  { wb with data := wb.data ++ lb.data, bits := wb.bits.dropLast }).eraseIdx
                    loser).drop loser)
                s1.global_depth dirs1 loser with
            | error e => simp only [hrp] at hmg; exact Except.noConfusion hmg
            | ok dirs2 =>
              simp only [hrp] at hmg
              rw [← Except.ok.inj hmg]
              intro x hx
              have hx2 := List.eraseIdx_subset _ _ hx
              rcases List.mem_or_eq_of_mem_set hx2 with hx3 | hx3
              · rcases List.mem_or_eq_of_mem_set hx3 with hx4 | hx4
                · exact hcap x hx4
                · rw [hx4]; simp
              · rw [hx3]; simpa using hwlen

theorem tryCoalesce_cap {K V : Type} {s1 s2 : EHMap K V} {i : Nat}
    (hcap : capP s1) (htc : tryCoalesce s1 i = .ok s2) : capP s2 := by
  unfold tryCoalesce at htc
  cases hbi : s1.buckets[i]? with
  | none => simp only [hbi] at htc; exact Except.noConfusion htc
  | some b =>
    simp only [hbi] at htc
    by_cases hld : 2 ≤ b.local_depth
    · rw [if_pos hld] at htc
      cases hlast : b.bits.getLast? with
      | none => simp only [hlast] at htc; exact Except.noConfusion htc
      | some lastbit =>
        simp only [hlast] at htc
        cases hdir : siblingIndex s1 b lastbit with
        | none => simp only [hdir] at htc; exact Except.noConfusion htc
        | some sibling_idx =>
          simp only [hdir] at htc
          cases hsib : s1.buckets[sibling_idx]? with
          | none => simp only [hsib] at htc; exact Except.noConfusion htc
          | some sib =>
            simp only [hsib] at htc
            by_cases heq : sib.local_depth = b.local_depth
            · rw [if_pos heq] at htc
              by_cases hsum : sib.data.length + b.data.length < BUCKET_CAP
              · rw [if_pos hsum] at htc
                by_cases hbit : lastbit = 1
                · rw [if_pos hbit] at htc
                  refine mergeBuckets_cap hcap ?_ htc
                  intro lb0 wb0 hl0 hw0
                  rw [hbi] at hl0; rw [hsib] at hw0
                  rw [← Option.some.inj hl0, ← Option.some.inj hw0]
                  omega
                · rw [if_neg hbit] at htc
                  refine mergeBuckets_cap hcap ?_ htc
                  intro lb0 wb0 hl0 hw0
                  rw [hsib] at hl0; rw [hbi] at hw0
                  rw [← Option.some.inj hl0, ← Option.some.inj hw0]
                  omega
              · rw [if_neg hsum] at htc
                exact Except.ok.inj htc ▸ hcap
            · rw [if_neg heq] at htc
              exact Except.ok.inj htc ▸ hcap
    · rw [if_neg hld] at htc
      exact Except.ok.inj htc ▸ hcap

theorem remove_cap {K V : Type} [DecidableEq K] (h : K → Nat) (key : K)
    {s s' : EHMap K V} {r : Option V}
    (hcap : capP s) (hrm : EHMap.remove h key s = .ok (r, s')) : capP s' := by
  unfold EHMap.remove at hrm
  cases hloc : locate_bucket h s key with
  | error e => simp only [hloc] at hrm; exact Except.noConfusion hrm
  | ok bucket_idx =>
    simp only [hloc] at hrm
    cases hb : s.buckets[bucket_idx]? with
    | none => simp only [hb] at hrm; exact Except.noConfusion hrm
    | some b =>
      simp only [hb] at hrm
      cases hre : removeEntry key b.data with
      | none =>
        simp only [hre] at hrm
        have := Except.ok.inj hrm
        have h2 : s = s' := congrArg Prod.snd this
        exact h2 ▸ hcap
      | some pr =>
        obtain ⟨value, rest⟩ := pr
        simp only [hre] at hrm
        have hrl := removeEntry_length key b.data value rest hre
        have hble := hcap b (mem_of_getElem?_eq hb)
        have hcap1 : capP
            ({ s with len := s.len - 1,
                      buckets := s.buckets.set bucket_idx { b with data := rest } } :
              EHMap K V) := by
          intro x hx
          rcases List.mem_or_eq_of_mem_set hx with hx1 | hx1
          · exact hcap x hx1
          · rw [hx1]; simp; omega
        cases htc : tryCoalesce
            ({ s with len := s.len - 1,
                      buckets := s.buckets.set bucket_idx { b with data := rest } } :
              EHMap K V) bucket_idx with
        | error e => simp only [htc] at hrm; exact Except.noConfusion hrm
        | ok s2 =>
          simp only [htc] at hrm
          have := Except.ok.inj hrm
          have h2 : s2 = s' := congrArg Prod.snd this
          exact h2 ▸ tryCoalesce_cap hcap1 htc

theorem insert_cap {K V : Type} [DecidableEq K] (h : K → Nat) (fuel : Nat) (key : K) (value : V)
    {s s' : EHMap K V} {r : Option V}
    (hcap : capP s) (hins : EHMap.insert h fuel key value s = .ok (r, s')) : capP s' := by
  unfold EHMap.insert at hins
  cases hloc : locate_bucket h s key with
  | error e => simp only [hloc] at hins; exact Except.noConfusion hins
  | ok bucket_idx =>
    simp only [hloc] at hins
    cases hb : s.buckets[bucket_idx]? with
    | none => simp only [hb] at hins; exact Except.noConfusion hins
    | some b =>
      simp only [hb] at hins
      by_cases hcont : b.contains key
      · rw [if_pos hcont] at hins
        have := Except.ok.inj hins
        have h2 : s = s' := congrArg Prod.snd this
        exact h2 ▸ hcap
      · rw [if_neg hcont] at hins
        by_cases hfull : b.is_full
        · rw [hfull] at hins
          simp only [Bool.not_true, if_neg (by simp : ¬ (false : Bool) = true)] at hins
          cases hsp : split h fuel key value bucket_idx s with
          | error e => simp only [hsp] at hins; exact Except.noConfusion hins
          | ok s2 =>
            simp only [hsp] at hins
            have := Except.ok.inj hins
            have h2 : _ = s' := congrArg Prod.snd this
            rw [← h2]
            intro x hx
            exact split_cap h fuel key value bucket_idx s s2 hcap hsp x hx
        · rw [Bool.not_eq_true] at hfull
          rw [hfull] at hins
          simp only [Bool.not_false, if_pos rfl] at hins
          by_cases hcl : BUCKET_CAP ≤ b.data.length
          · rw [if_pos hcl] at hins; exact Except.noConfusion hins
          · rw [if_neg hcl] at hins
            have := Except.ok.inj hins
            have h2 : _ = s' := congrArg Prod.snd this
            rw [← h2]
            intro x hx
            rcases List.mem_or_eq_of_mem_set hx with hx1 | hx1
            · exact hcap x hx1
            · rw [hx1]; simp; omega

theorem getMutWrite_cap {K V : Type} [DecidableEq K] (h : K → Nat) (key : K) (v : V)
    {s s' : EHMap K V}
    (hcap : capP s) (hg : getMutWrite h key v s = .ok s') : capP s' := by
  unfold getMutWrite at hg
  cases hloc : locate_bucket h s key with
  | error e => simp only [hloc] at hg; exact Except.noConfusion hg
  | ok bucket_idx =>
    simp only [hloc] at hg
    cases hb : s.buckets[bucket_idx]? with
    | none => simp only [hb] at hg; exact Except.noConfusion hg
    | some b =>
      simp only [hb] at hg
      cases hfi : List.findIdx? (fun p => p.1 == key) b.data with
      | none => simp only [hfi] at hg; exact Except.ok.inj hg ▸ hcap
      | some i =>
        simp only [hfi] at hg
        cases hbi : b.data[i]? with
        | none => simp only [hbi] at hg; exact Except.ok.inj hg ▸ hcap
        | some p =>
          simp only [hbi] at hg
          rw [← Except.ok.inj hg]
          intro x hx
          rcases List.mem_or_eq_of_mem_set hx with hx1 | hx1
          · exact hcap x hx1
          · rw [hx1]
            simpa using hcap b (mem_of_getElem?_eq hb)

theorem runOps_cap {K V : Type} [DecidableEq K] (h : K → Nat) :
    ∀ (ops : List (Op K V)) (s s' : EHMap K V),
      capP s → runOps h ops s = .ok s' → capP s' := by
  intro ops
  induction ops with
  | nil => intro s s' hcap hr; unfold runOps at hr; exact Except.ok.inj hr ▸ hcap
  | cons op rest ih =>
    intro s s' hcap hr
    unfold runOps at hr
    cases hap : applyOp h s op with
    | error e => simp only [hap] at hr; exact Except.noConfusion hr
    | ok s1 =>
      simp only [hap] at hr
      refine ih s1 s' ?_ hr
      unfold applyOp at hap
      cases op with
      | ins fuel k v =>
        cases hins : EHMap.insert h fuel k v s with
        | error e => simp only [hins] at hap; exact Except.noConfusion hap
        | ok pr =>
          simp only [hins] at hap
          exact Except.ok.inj hap ▸ insert_cap h fuel k v hcap (by rw [hins])
      | rem k =>
        cases hrm : EHMap.remove h k s with
        | error e => simp only [hrm] at hap; exact Except.noConfusion hap
        | ok pr =>
          simp only [hrm] at hap
          exact Except.ok.inj hap ▸ remove_cap h k hcap (by rw [hrm])
      | gmw k v => exact getMutWrite_cap h k v hcap hap

theorem capP_new {K V : Type} : capP (EHMap.new : EHMap K V) := by
  intro b hb
  unfold EHMap.new at hb
  simp at hb
  rcases hb with h1 | h1 <;> rw [h1] <;> simp [BUCKET_CAP]

theorem tryCoalesce_of_cond_false {K V : Type} (s1 : EHMap K V) (i : Nat) (s2 : EHMap K V)
    (htc : tryCoalesce s1 i = .ok s2) (hnc : coalesceConditions s1 i = false) : s2 = s1 := by
  unfold tryCoalesce at htc
  unfold coalesceConditions at hnc
  cases hbi : s1.buckets[i]? with
  | none => simp only [hbi] at htc; exact Except.noConfusion htc
  | some b =>
    simp only [hbi] at htc hnc
    by_cases hld : 2 ≤ b.local_depth
    · rw [if_pos hld] at htc hnc
      cases hlast : b.bits.getLast? with
      | none => simp only [hlast] at htc; exact Except.noConfusion htc
      | some lastbit =>
        simp only [hlast] at htc hnc
        cases hdir : siblingIndex s1 b lastbit with
        | none => simp only [hdir] at htc; exact Except.noConfusion htc
        | some sibling_idx =>
          simp only [hdir] at htc hnc
          cases hsib : s1.buckets[sibling_idx]? with
          | none => simp only [hsib] at htc; exact Except.noConfusion htc
          | some sib =>
            simp only [hsib] at htc hnc
            by_cases heq : sib.local_depth = b.local_depth
            · rw [if_pos heq] at htc
              by_cases hsum : sib.data.length + b.data.length < BUCKET_CAP
              · exact absurd hnc (by simp [heq, hsum])
              · rw [if_neg hsum] at htc
                exact (Except.ok.inj htc).symm
            · rw [if_neg heq] at htc
              exact (Except.ok.inj htc).symm
    · rw [if_neg hld] at htc
      exact (Except.ok.inj htc).symm
/-! Section five: the claim theorems. -/

/-- Claim C1 (evaluation of the code at the failing input): the contract says an
insert of an existing key updates the stored value in place and returns the
previous value, leaving `len()` unchanged.  The code instead returns the
incoming value and does not touch the map: after `insert(1, 10)`, a second
`insert(1, 20)` returns `Some(20)`, `get(1)` still yields `10`, and `len()`
stays `1`.  The claimed result would be `.ok (some 10, some 20, 1)`. -/
theorem c1_insert_existing_key_code_eval : c1Run = .ok (some 20, some 10, 1) := rfl

/-- Claim C2 (evaluation of the code at the failing input): for a `Range` whose
span is a power of two at least 2, the claim says `last_half_range()` returns
the upper half `[start + (end - start + 1) / 2, end]` — `7..=7` for `6..=7` and
`2..=3` for `0..=3`.  The code computes `start + (end - start) / 2` and returns
`6..=7` (the whole range) and `1..=3` (three of four slots); only the `EqualTo`
half of the claim holds. -/
theorem c2_last_half_range_code_eval :
    BucketValue.last_half_range (.Range 6 7) = some (6, 7) ∧
    BucketValue.last_half_range (.Range 0 3) = some (1, 3) ∧
    BucketValue.last_half_range (.EqualTo 3) = none := ⟨rfl, rfl, rfl⟩

/-- Claim C3 (counterexample): the state reached from `new()` by inserting the
`i32` keys 0..10 (each mapped to itself, hashed by `DefaultHasher`) is a
completed, reachable state in which some bucket's set of directory slots is not
the image of its `value(global_depth)`: bucket `[0,1]` occupies slots 3..7
although its image is `4..=7`, and bucket `[0,0]` occupies only slot 0 although
its image is `0..=1`.  The claim would require `c3Outcome = some true`. -/
theorem c3_directory_image_invariant_counterexample : c3Outcome = some false := rfl

/-- Claim C4 (evaluation of the code at the failing input): the round-trip
claim says `get(k)` returns `v` after `insert(k, v)` in every reachable state.
In the reachable state after `insert(7, 70)`, the call `insert(7, 71)` leaves
the stored value untouched, so the subsequent `get(7)` returns `70 ≠ 71`. -/
theorem c4_insert_get_round_trip_code_eval :
    c4Run = .ok (some 70) ∧ some (70 : Nat) ≠ some 71 := ⟨rfl, by decide⟩

/-- Claim C5 (evaluation of the code at the failing input): the reference
driver (for each `i32` key `i` in 0..30: `remove(i)` then `insert(i, i)`,
hashed by `DefaultHasher`) does not reach a map with `len() == 30`; the insert
of key 12 aborts in `HashMap::split` because a rehashed entry lands in neither
the split bucket nor its new sibling.  The claim would require
`c5Outcome = none`. -/
theorem c5_growth_scenario_code_eval :
    c5Outcome = some "assertion failed: idx == bucket_to_split || idx == new_bucket_idx" := rfl

/-- Claim C6: in every map state reachable from `new()` by a sequence of
`insert`, `remove` and value-writing `get_mut` calls that return normally
(`runOps` over an arbitrary hash function and arbitrary split fuel), every
bucket holds at most `BUCKET_CAP` entries. -/
theorem c6_capacity_bound {K V : Type} [DecidableEq K] (h : K → Nat)
    (ops : List (Op K V)) (s : EHMap K V)
    (hrun : runOps h ops EHMap.new = .ok s) :
    ∀ b ∈ s.buckets, b.data.length ≤ BUCKET_CAP :=
  runOps_cap h ops EHMap.new s capP_new hrun

/-- Witness for claim C6 at the concrete call sequence
`insert(3, 30); insert(4, 40); remove(3)` under `DefaultHasher`: the reached
state satisfies the capacity bound (`capP` states the bound for every bucket). -/
theorem c6_capacity_bound_witness : capP c6WitnessState :=
  c6_capacity_bound defaultHashI32 [Op.ins 64 3 30, Op.ins 64 4 40, Op.rem 3]
    c6WitnessState rfl

/-- Claim C7: for every 64-bit hash and every depth `d < 64`, the directory
index obtained from the first `d + 1` bits (`bits_to_value` of
`get_first_n_bits`) is either twice the index obtained from the first `d`
bits, or twice that index plus one. -/
theorem c7_prefix_index_doubling (hsh d : Nat) (hh : hsh < 2 ^ 64) (hd : d < 64) :
    bits_to_value (get_first_n_bits (d + 1) hsh) = 2 * bits_to_value (get_first_n_bits d hsh) ∨
    bits_to_value (get_first_n_bits (d + 1) hsh) =
      2 * bits_to_value (get_first_n_bits d hsh) + 1 := by
  obtain ⟨b, hb, heq⟩ := get_first_n_bits_succ d hsh
  rw [heq, bits_to_value_append_bit]
  interval_cases b
  · exact Or.inl (by ring)
  · exact Or.inr rfl

/-- Witness for claim C7 at the hash 12345 and depth 3. -/
theorem c7_prefix_index_doubling_witness :
    bits_to_value (get_first_n_bits (3 + 1) 12345) =
      2 * bits_to_value (get_first_n_bits 3 12345) ∨
    bits_to_value (get_first_n_bits (3 + 1) 12345) =
      2 * bits_to_value (get_first_n_bits 3 12345) + 1 :=
  c7_prefix_index_doubling 12345 3 (by decide) (by decide)

/-- Claim C8: whenever `remove` deletes an entry and any of the three
coalescing conditions fails on the post-deletion state (local depth at least
2; the sibling found by flipping the last bit and padding to global depth has
equal local depth; the combined entry count is strictly below `BUCKET_CAP`),
no structural change occurs: the returned state is exactly the deletion-only
state `s1` — same `global_depth`, same `directories`, same buckets except for
the removed entry, `len` decremented once. -/
theorem c8_no_merge_without_conditions {K V : Type} [DecidableEq K] (h : K → Nat) (key : K)
    (s s1 sFinal : EHMap K V) (bucket_idx : Nat) (b : Bucket K V) (v : V) (rest : List (K × V))
    (hloc : locate_bucket h s key = .ok bucket_idx)
    (hb : s.buckets[bucket_idx]? = some b)
    (hdel : removeEntry key b.data = some (v, rest))
    (hs1 : s1 = { s with len := s.len - 1,
                         buckets := s.buckets.set bucket_idx { b with data := rest } })
    (hnc : coalesceConditions s1 bucket_idx = false)
    (hrem : EHMap.remove h key s = .ok (some v, sFinal)) :
    sFinal = s1 := by
  subst hs1
  unfold EHMap.remove at hrem
  simp only [hloc, hb, hdel] at hrem
  cases htc : tryCoalesce
      { s with len := s.len - 1,
               buckets := s.buckets.set bucket_idx { b with data := rest } } bucket_idx with
  | error e => rw [htc] at hrem; exact absurd hrem (by simp)
  | ok s2 =>
    rw [htc] at hrem
    have h2 := Except.ok.inj hrem
    have h3 : s2 = sFinal := congrArg Prod.snd h2
    rw [← h3]
    exact tryCoalesce_of_cond_false _ _ _ htc hnc

/-- Witness for claim C8: removing key 1 from the map holding only `(1, 10)`
(its bucket has local depth 1, so the first condition fails) returns exactly
the deletion-only state. -/
theorem c8_no_merge_without_conditions_witness : c8sFinal = c8s1 :=
  c8_no_merge_without_conditions defaultHashI32 1 c8s c8s1 c8sFinal 0 ⟨[0], [(1, 10)]⟩ 10 []
    rfl rfl rfl rfl rfl rfl

/-- Claim C9 (evaluation of the code at the failing input): inserting the
`i32` keys 0..11 from `new()` reaches a normal state, but the next call
`insert(12, 12)` invokes `split` and the assertion
`idx == bucket_to_split || idx == new_bucket_idx` fails: an entry being
redistributed relocates to a bucket other than the split bucket and its new
sibling.  The claim says this assertion never fails on reachable states. -/
theorem c9_split_rehash_assertion_code_eval :
    c9PrefixReachable = true ∧
    c9Outcome = some "assertion failed: idx == bucket_to_split || idx == new_bucket_idx" :=
  ⟨rfl, rfl⟩

/-- Claim C10 (evaluation of the code at the failing input): after inserting
keys 0..10 and removing keys 1 and 3 (the second removal coalesces two buckets
and leaves directory slot 3 pointing at the removed storage index 5), the key
25 is absent from every bucket, yet `remove(25)` aborts in the bucket lookup
instead of returning none and leaving the map unchanged. -/
theorem c10_remove_absent_key_code_eval :
    c10KeyAbsent = some false ∧
    c10Outcome = .error "locate_bucket() returns a wrong index" := ⟨rfl, rfl⟩
